import Mathlib

/-!
B+-tree nodes (`BTreeNode.cc`).

A shallow embedding of `BTLeafNode` and `BTNonLeafNode` from `src/BTreeNode.cc`.

* The page buffer `char buffer[1024]`, which every member function reinterprets as
  `int[256]`, is a map from word index to word value.  A word access outside
  `[0, 256)` is undefined behaviour in C++; here it yields `none`.
* `int` values are `Int`.  The code does no arithmetic on keys, page ids or slot ids
  (they are only copied and compared), and every index it computes is bounded by
  `3 * keyCount + 2`, so no 32-bit wrap-around is reachable on an in-bounds access.
* Reference (`&`) out-parameters are passed in and returned: a function that leaves
  an out-parameter untouched returns the value it was given.
* A member function returns `Option (RC × ...)`: `none` stands for undefined
  behaviour, `some (rc, ...)` for a normal return with return code `rc`.
-/

namespace BTreeNode

/-- Modelled from the spec: `RecordId` is declared in a header that is not part of the
sources; the spec gives it as a pair (pageId, slotId) of 32-bit values, and the code
reads and writes the fields `pid` and `sid`. -/
structure RecordId where
  pid : Int
  sid : Int
deriving DecidableEq, Repr

/-- Number of `int` words of the page buffer ("Equivalent to int buffer[256]"). -/
def bufferWords : Int := 256

/-- Modelled from the spec: `g_maxKeyCount` is declared in `BTreeNode.h`, which is not
part of the sources; the spec bounds the capacity of a leaf over a 1024-byte page to
`floor((1024 - 4) / 12) = 85` entries. -/
def g_maxKeyCount : Int := 85

/-- The state of a `BTLeafNode` object: the page buffer seen as words, and the member
`keyCount`. -/
structure BTLeafNode where
  buffer : Nat → Int
  keyCount : Int

/-- Read of `*(intBufferPtr + i)`. -/
def loadWord (b : Nat → Int) (i : Int) : Option Int :=
  if 0 ≤ i ∧ i < bufferWords then some (b i.toNat) else none

/-- Write `*(intBufferPtr + i) = v`. -/
def storeWord (b : Nat → Int) (i : Int) (v : Int) : Option (Nat → Int) :=
  if 0 ≤ i ∧ i < bufferWords then some (fun j => if j = i.toNat then v else b j) else none

/-- `BTLeafNode::getKeyCount`. -/
def getKeyCount (n : BTLeafNode) : Int := n.keyCount

/-- `BTLeafNode::checkFull`. -/
def checkFull (n : BTLeafNode) : Bool :=
  if n.keyCount ≥ g_maxKeyCount then true else false

/-- `BTLeafNode::readEntry(eid, key, rid)`: the result is the return code and the values
of the out-parameters `key` and `rid` after the call. -/
def readEntry (n : BTLeafNode) (eid : Int) (key : Int) (rid : RecordId) :
    Option (Int × Int × RecordId) :=
  if n.keyCount ≤ 0 ∨ eid < 0 ∨ eid ≥ n.keyCount then some (-1, key, rid)
  else
    let index := eid * 3
    match loadWord n.buffer index, loadWord n.buffer (index + 1),
        loadWord n.buffer (index + 2) with
    | some k, some p, some s => some (0, k, ⟨p, s⟩)
    | _, _, _ => none

/-- `BTLeafNode::getNextNodePtr`: word 255 of the buffer. -/
def getNextNodePtr (n : BTLeafNode) : Int := n.buffer 255

/-- `BTLeafNode::setNextNodePtr`. -/
def setNextNodePtr (n : BTLeafNode) (pid : Int) : Int × BTLeafNode :=
  (0, { n with buffer := fun j => if j = 255 then pid else n.buffer j })

/-- `BTLeafNode::insertToBuffer(key, rid, eid)`. -/
def insertToBuffer (n : BTLeafNode) (key : Int) (rid : RecordId) (eid : Int) :
    Option (Int × BTLeafNode) :=
  if checkFull n then some (-1, n)
  else
    let index := eid * 3
    match storeWord n.buffer index key with
    | none => none
    | some b1 =>
      match storeWord b1 (index + 1) rid.pid with
      | none => none
      | some b2 =>
        match storeWord b2 (index + 2) rid.sid with
        | none => none
        | some b3 => some (0, { n with buffer := b3 })

/-- The loop of `BTLeafNode::shift(eid)`, `for (i = keyCount-1; i >= eid; i--)`, with `k`
iterations left: the next iteration runs at `i = eid + k - 1`, and with `k = 0` the
test `i >= eid` fails and the function returns 0. -/
def shiftLoop (eid : Int) : Nat → BTLeafNode → Option (Int × BTLeafNode)
  | 0, n => some (0, n)
  | k + 1, n =>
    let i := eid + k
    match readEntry n i 0 ⟨0, 0⟩ with
    | none => none
    | some (rc, readKey, readRid) =>
      if rc ≠ 0 then some (-1, n)
      else
        match insertToBuffer n readKey readRid (i + 1) with
        | none => none
        | some (rc2, n2) =>
          if rc2 ≠ 0 then some (-1, n2) else shiftLoop eid k n2

/-- `BTLeafNode::shift(eid)`: the loop starts at `i = keyCount - 1` and runs while
`i >= eid`, that is `keyCount - eid` times (not at all when that is not positive). -/
def shift (n : BTLeafNode) (eid : Int) : Option (Int × BTLeafNode) :=
  shiftLoop eid (n.keyCount - eid).toNat n

/-- The scan of `BTLeafNode::insert`, `for (i = 0; i < keyCount; i++)`, at index `i` with
`k` iterations left; the result is the final value of `eidCandidate`.  The locals
`readKey`, `readRid` are uninitialised, so using `readKey` after a failed `readEntry`
is undefined. -/
def insertScan (n : BTLeafNode) (key : Int) : Nat → Int → Option Int
  | 0, _ => some n.keyCount
  | k + 1, i =>
    match readEntry n i 0 ⟨0, 0⟩ with
    | none => none
    | some (rc, readKey, _) =>
      if rc ≠ 0 then none
      else if readKey ≥ key then some i
      else insertScan n key k (i + 1)

/-- `BTLeafNode::insert(key, rid)`. -/
def insert (n : BTLeafNode) (key : Int) (rid : RecordId) : Option (Int × BTLeafNode) :=
  if checkFull n then some (-1, n)
  else
    match insertScan n key n.keyCount.toNat 0 with
    | none => none
    | some eidCandidate =>
      match (if eidCandidate ≠ n.keyCount then shift n eidCandidate else some (0, n)) with
      | none => none
      | some (_, n1) =>
        match insertToBuffer n1 key rid eidCandidate with
        | none => none
        | some (_, n2) => some (0, { n2 with keyCount := n2.keyCount + 1 })

/-- `BTLeafNode::insertAndSplit(key, rid, sibling, siblingKey)`: the result is the return
code, this node, the sibling and the out-parameter `siblingKey` after the call. -/
def insertAndSplit (n : BTLeafNode) (key : Int) (rid : RecordId) (sibling : BTLeafNode)
    (siblingKey : Int) : Option (Int × BTLeafNode × BTLeafNode × Int) :=
  match insert n key rid with
  | none => none
  | some (_, n1) =>
    match readEntry sibling 0 siblingKey ⟨0, 0⟩ with
    | none => none
    | some (_, siblingKey1, _) => some (0, n1, sibling, siblingKey1)

/-- The loop of `BTLeafNode::locate`, at index `i` with `k` iterations left; `eid` is the
current value of the out-parameter. -/
def locateLoop (n : BTLeafNode) (searchKey : Int) (eid : Int) : Nat → Int → Option (Int × Int)
  | 0, _ => some (-1, eid)
  | k + 1, i =>
    match readEntry n i 0 ⟨0, 0⟩ with
    | none => none
    | some (rc, keyEntry, _) =>
      if rc ≠ 0 then none
      else if keyEntry ≥ searchKey then some (0, i)
      else locateLoop n searchKey eid k (i + 1)

/-- `BTLeafNode::locate(searchKey, eid)`: the result is the return code and the value of
`eid` after the call. -/
def locate (n : BTLeafNode) (searchKey : Int) (eid : Int) : Option (Int × Int) :=
  if n.keyCount ≤ 0 ∨ eid < 0 ∨ eid ≥ n.keyCount then some (-1, eid)
  else locateLoop n searchKey eid n.keyCount.toNat 0

/-- Modelled from the spec: `PageFile` is declared in a header that is not part of the
sources.  The spec gives the page store as `read(pageId) -> fixed-size byte buffer` and
`write(pageId, buffer) -> status`, both failing with an I/O error on underlying failure.
A store holds the pages written so far (as 256 words each), and `fails pid` tells for
which page ids the underlying I/O fails. -/
structure PageFile where
  pages : Int → Option (Nat → Int)
  fails : Int → Bool

/-- Modelled from the spec: `PageFile::read(pid, buffer)`, the return code and the buffer
after the call.  A page that was never written cannot be read. -/
def PageFile.read (pf : PageFile) (pid : Int) (buffer : Nat → Int) : Int × (Nat → Int) :=
  if pf.fails pid then (-1, buffer)
  else
    match pf.pages pid with
    | some page => (0, fun j => if j < 256 then page j else buffer j)
    | none => (-1, buffer)

/-- Modelled from the spec: `PageFile::write(pid, buffer)`, the return code and the store
after the call. -/
def PageFile.write (pf : PageFile) (pid : Int) (buffer : Nat → Int) : Int × PageFile :=
  if pf.fails pid then (-1, pf)
  else (0, { pf with pages := fun q => if q = pid then some buffer else pf.pages q })

/-- `BTLeafNode::read(pid, pf)`: the return code and the node after the call. -/
def read (n : BTLeafNode) (pid : Int) (pf : PageFile) : Int × BTLeafNode :=
  match pf.read pid n.buffer with
  | (rc, buffer) =>
    if rc < 0 then (rc, { n with buffer := buffer }) else (0, { n with buffer := buffer })

/-- `BTLeafNode::write(pid, pf)`: the return code and the page store after the call. -/
def write (n : BTLeafNode) (pid : Int) (pf : PageFile) : Int × PageFile :=
  match pf.write pid n.buffer with
  | (rc, pf1) => if rc < 0 then (rc, pf1) else (0, pf1)

/-- Modelled from the spec: the class `BTNonLeafNode` is declared in `BTreeNode.h`, which
is not part of the sources; the spec gives an internal node as a page-sized buffer.  No
member function under `src/` reads or writes a member of the class. -/
structure BTNonLeafNode where
  buffer : Nat → Int

/-- `BTNonLeafNode::read(pid, pf)`, whose body is `return 0;`. -/
def BTNonLeafNode.read (n : BTNonLeafNode) (_pid : Int) (_pf : PageFile) :
    Int × BTNonLeafNode := (0, n)

/-- `BTNonLeafNode::write(pid, pf)`, whose body is `return 0;`. -/
def BTNonLeafNode.write (_n : BTNonLeafNode) (_pid : Int) (pf : PageFile) :
    Int × PageFile := (0, pf)

/-- `BTNonLeafNode::getKeyCount()`, whose body is `return 0;`. -/
def BTNonLeafNode.getKeyCount (_n : BTNonLeafNode) : Int := 0

/-- `BTNonLeafNode::insert(key, pid)`, whose body is `return 0;`. -/
def BTNonLeafNode.insert (n : BTNonLeafNode) (_key : Int) (_pid : Int) :
    Int × BTNonLeafNode := (0, n)

/-- `BTNonLeafNode::insertAndSplit(key, pid, sibling, midKey)`, whose body is
`return 0;`: the return code, this node, the sibling and `midKey` after the call. -/
def BTNonLeafNode.insertAndSplit (n : BTNonLeafNode) (_key : Int) (_pid : Int)
    (sibling : BTNonLeafNode) (midKey : Int) :
    Int × BTNonLeafNode × BTNonLeafNode × Int := (0, n, sibling, midKey)

/-- `BTNonLeafNode::locateChildPtr(searchKey, pid)`, whose body is `return 0;`: the return
code and the out-parameter `pid` after the call. -/
def BTNonLeafNode.locateChildPtr (_n : BTNonLeafNode) (_searchKey : Int) (pid : Int) :
    Int × Int := (0, pid)

/-- `BTNonLeafNode::initializeRoot(pid1, key, pid2)`, whose body is `return 0;`. -/
def BTNonLeafNode.initializeRoot (n : BTNonLeafNode) (_pid1 : Int) (_key : Int)
    (_pid2 : Int) : Int × BTNonLeafNode := (0, n)

/-! ## Definitions used to state and prove the properties -/

/-- The buffer after the three stores of `insertToBuffer` at entry `e`. -/
def putEntry (b : Nat → Int) (e : Nat) (key : Int) (rid : RecordId) : Nat → Int :=
  fun j => if j = 3 * e + 2 then rid.sid else if j = 3 * e + 1 then rid.pid
    else if j = 3 * e then key else b j

/-- The buffer after entries `p .. p + k - 1` have been copied one entry to the right. -/
def shiftBuf (b : Nat → Int) (p k : Nat) : Nat → Int :=
  fun j => if 3 * p + 3 ≤ j ∧ j < 3 * (p + k) + 3 then b (j - 3) else b j

/-- A sequence of `insert` calls on one node (their return codes are not looked at). -/
def insertAll : BTLeafNode → List (Int × RecordId) → Option BTLeafNode
  | n, [] => some n
  | n, (key, rid) :: rest =>
    match insert n key rid with
    | none => none
    | some (_, n1) => insertAll n1 rest

/-- The sort invariant as the accessors show it: for every `i` with `0 ≤ i` and
`i + 1 < getKeyCount()`, `readEntry(i)` and `readEntry(i+1)` return 0 and the key of the
first is at most the key of the second. -/
def Sorted (n : BTLeafNode) : Prop :=
  ∀ i : Int, 0 ≤ i → i + 1 < getKeyCount n →
    ∃ k1 r1 k2 r2, readEntry n i 0 ⟨0, 0⟩ = some (0, k1, r1) ∧
      readEntry n (i + 1) 0 ⟨0, 0⟩ = some (0, k2, r2) ∧ k1 ≤ k2

/-- The buffer `insert` leaves when it puts the entry at position `p` of `c` entries. -/
def insertBuf (b : Nat → Int) (p c : Nat) (key : Int) (rid : RecordId) : Nat → Int :=
  putEntry (shiftBuf b p (c - p)) p key rid

/-- An empty leaf over a zeroed buffer. -/
def emptyLeaf : BTLeafNode := ⟨fun _ => 0, 0⟩

/-- A leaf holding the single entry `(7, (0, 0))`. -/
def leaf7 : BTLeafNode := ⟨fun j => if j = 0 then 7 else 0, 1⟩

/-- A leaf at capacity: buffer word `j` holds `j`, so entry `i` of its 85 entries is
`(3 * i, (3 * i + 1, 3 * i + 2))`. -/
def fullLeaf : BTLeafNode := ⟨fun j => (j : Int), 85⟩

/-- The inserts that build the leaf with keys 2, 5, 5, 9. -/
def inserts2559 : List (Int × RecordId) := [(2, ⟨1, 0⟩), (5, ⟨1, 1⟩), (5, ⟨1, 2⟩), (9, ⟨1, 3⟩)]

/-- A call on a leaf: `insert(key, rid)` or
`insertAndSplit(key, rid, sibling, siblingKey)`. -/
inductive LeafCall where
  | insert (key : Int) (rid : RecordId)
  | insertAndSplit (key : Int) (rid : RecordId) (sibling : BTLeafNode) (siblingKey : Int)

/-- A sequence of `insert` and `insertAndSplit` calls on one node (their return codes and
the outputs of `insertAndSplit` are not looked at). -/
def runCalls : BTLeafNode → List LeafCall → Option BTLeafNode
  | n, [] => some n
  | n, LeafCall.insert key rid :: rest =>
    match insert n key rid with
    | none => none
    | some (_, n1) => runCalls n1 rest
  | n, LeafCall.insertAndSplit key rid sibling siblingKey :: rest =>
    match insertAndSplit n key rid sibling siblingKey with
    | none => none
    | some (_, n1, _, _) => runCalls n1 rest

/-- The return codes of a sequence of `BTNonLeafNode::insert` calls on one node. -/
def BTNonLeafNode.insertCodes : BTNonLeafNode → List (Int × Int) → List Int
  | _, [] => []
  | n, (key, pid) :: rest =>
    (BTNonLeafNode.insert n key pid).1 ::
      BTNonLeafNode.insertCodes (BTNonLeafNode.insert n key pid).2 rest

/-- `BTLeafNode::insertToBuffer` together with the word indices it stores to. -/
def insertToBufferLog (n : BTLeafNode) (key : Int) (rid : RecordId) (eid : Int) :
    Option (Int × BTLeafNode × List Int) :=
  if checkFull n then some (-1, n, [])
  else
    let index := eid * 3
    match storeWord n.buffer index key with
    | none => none
    | some b1 =>
      match storeWord b1 (index + 1) rid.pid with
      | none => none
      | some b2 =>
        match storeWord b2 (index + 2) rid.sid with
        | none => none
        | some b3 => some (0, { n with buffer := b3 }, [index, index + 1, index + 2])

/-- The loop of `BTLeafNode::shift` together with the word indices it stores to. -/
def shiftLoopLog (eid : Int) : Nat → BTLeafNode → Option (Int × BTLeafNode × List Int)
  | 0, n => some (0, n, [])
  | k + 1, n =>
    let i := eid + k
    match readEntry n i 0 ⟨0, 0⟩ with
    | none => none
    | some (rc, readKey, readRid) =>
      if rc ≠ 0 then some (-1, n, [])
      else
        match insertToBufferLog n readKey readRid (i + 1) with
        | none => none
        | some (rc2, n2, w) =>
          if rc2 ≠ 0 then some (-1, n2, w)
          else
            match shiftLoopLog eid k n2 with
            | none => none
            | some (rc3, n3, w3) => some (rc3, n3, w ++ w3)

/-- `BTLeafNode::shift` together with the word indices it stores to. -/
def shiftLog (n : BTLeafNode) (eid : Int) : Option (Int × BTLeafNode × List Int) :=
  shiftLoopLog eid (n.keyCount - eid).toNat n

/-- `BTLeafNode::insert` together with the word indices that `shift` and `insertToBuffer`
store to during the call. -/
def insertLog (n : BTLeafNode) (key : Int) (rid : RecordId) :
    Option (Int × BTLeafNode × List Int) :=
  if checkFull n then some (-1, n, [])
  else
    match insertScan n key n.keyCount.toNat 0 with
    | none => none
    | some eidCandidate =>
      match (if eidCandidate ≠ n.keyCount then shiftLog n eidCandidate
        else some (0, n, [])) with
      | none => none
      | some (_, n1, w1) =>
        match insertToBufferLog n1 key rid eidCandidate with
        | none => none
        | some (_, n2, w2) => some (0, { n2 with keyCount := n2.keyCount + 1 }, w1 ++ w2)

/-- A leaf holding the entries `(5, (1, 1))` and `(9, (1, 3))`. -/
def leaf59 : BTLeafNode :=
  ⟨fun j => if j = 0 then 5 else if j = 1 then 1 else if j = 2 then 1 else if j = 3 then 9
    else if j = 4 then 1 else if j = 5 then 3 else 0, 2⟩

/-- A page store without pages on which no I/O fails. -/
def emptyStore : PageFile := ⟨fun _ => none, fun _ => false⟩

/-! ## Buffer accesses and loops -/

theorem loadWord_nat (b : Nat → Int) (j : Nat) (hj : j < 256) :
    loadWord b (j : Int) = some (b j) := by
  unfold loadWord bufferWords
  rw [if_pos (by omega)]
  simp

theorem storeWord_nat (b : Nat → Int) (j : Nat) (v : Int) (hj : j < 256) :
    storeWord b (j : Int) v = some (fun i => if i = j then v else b i) := by
  unfold storeWord bufferWords
  rw [if_pos (by omega)]
  simp

theorem readEntry_nat (b : Nat → Int) (c e : Nat) (he : e < c) (hc : c ≤ 85)
    (k0 : Int) (r0 : RecordId) :
    readEntry ⟨b, c⟩ e k0 r0 = some (0, b (3 * e), ⟨b (3 * e + 1), b (3 * e + 2)⟩) := by
  unfold readEntry
  rw [if_neg (by simp only []; omega)]
  have e1 : ((e : Int) * 3) = ((3 * e : Nat) : Int) := by push_cast; ring
  have e2 : (((3 * e : Nat) : Int) + 1) = ((3 * e + 1 : Nat) : Int) := by push_cast; ring
  have e3 : (((3 * e : Nat) : Int) + 2) = ((3 * e + 2 : Nat) : Int) := by push_cast; ring
  simp only []
  rw [e1, e2, e3, loadWord_nat b _ (by omega), loadWord_nat b _ (by omega),
    loadWord_nat b _ (by omega)]

theorem readEntry_out (n : BTLeafNode) (eid : Int) (h : ¬ (0 ≤ eid ∧ eid < n.keyCount))
    (k0 : Int) (r0 : RecordId) : readEntry n eid k0 r0 = some (-1, k0, r0) := by
  unfold readEntry
  rw [if_pos (by omega)]

theorem insertToBuffer_nat (b : Nat → Int) (c e : Nat) (hc : c < 85) (he : e < 85)
    (key : Int) (rid : RecordId) :
    insertToBuffer ⟨b, c⟩ key rid e = some (0, ⟨putEntry b e key rid, c⟩) := by
  have hcf : checkFull ⟨b, c⟩ = false := by
    unfold checkFull g_maxKeyCount
    rw [if_neg (by simp only []; omega)]
  unfold insertToBuffer
  have e1 : ((e : Int) * 3) = ((3 * e : Nat) : Int) := by push_cast; ring
  have e2 : (((3 * e : Nat) : Int) + 1) = ((3 * e + 1 : Nat) : Int) := by push_cast; ring
  have e3 : (((3 * e : Nat) : Int) + 2) = ((3 * e + 2 : Nat) : Int) := by push_cast; ring
  rw [hcf, if_neg Bool.false_ne_true]
  simp only []
  rw [e1, e2, e3, storeWord_nat _ _ _ (by omega)]
  simp only []
  rw [storeWord_nat _ _ _ (by omega)]
  simp only []
  rw [storeWord_nat _ _ _ (by omega)]
  rfl

theorem shiftLoop_nat (p c : Nat) (hc : c < 85) :
    ∀ (k : Nat) (b : Nat → Int), p + k ≤ c →
      shiftLoop (p : Int) k ⟨b, c⟩ = some (0, ⟨shiftBuf b p k, c⟩) := by
  intro k
  induction k with
  | zero =>
    intro b _
    unfold shiftLoop
    have : shiftBuf b p 0 = b := by
      funext j
      unfold shiftBuf
      rw [if_neg (by omega)]
    rw [this]
  | succ k ih =>
    intro b hk
    unfold shiftLoop
    have e1 : ((p : Int) + (k : Int)) = ((p + k : Nat) : Int) := by push_cast; ring
    have e2 : (((p + k : Nat) : Int) + 1) = ((p + k + 1 : Nat) : Int) := by push_cast; ring
    simp only []
    rw [e1, e2, readEntry_nat b c (p + k) (by omega) (by omega)]
    simp only [ne_eq, not_true_eq_false, if_false]
    rw [insertToBuffer_nat b c (p + k + 1) hc (by omega)]
    simp only [ne_eq, not_true_eq_false, if_false]
    rw [ih _ (by omega)]
    simp only [Option.some.injEq, Prod.mk.injEq, true_and]
    congr 1
    funext j
    unfold shiftBuf putEntry
    simp only []
    split_ifs <;> first | rfl | omega | (congr 1; omega)

theorem insertScan_nat (b : Nat → Int) (c : Nat) (key : Int) (hc : c ≤ 85) :
    ∀ (k i : Nat), i + k = c → (∀ j, j < i → b (3 * j) < key) →
      ∃ p : Nat, insertScan ⟨b, c⟩ key k i = some (p : Int) ∧ p ≤ c ∧
        (∀ j, j < p → b (3 * j) < key) ∧ (p < c → key ≤ b (3 * p)) := by
  intro k
  induction k with
  | zero =>
    intro i hi hlt
    refine ⟨c, ?_, le_refl _, ?_, ?_⟩
    · unfold insertScan; rfl
    · intro j hj; exact hlt j (by omega)
    · intro h; omega
  | succ k ih =>
    intro i hi hlt
    unfold insertScan
    rw [readEntry_nat b c i (by omega) hc]
    simp only [ne_eq, not_true_eq_false, if_false]
    by_cases hge : b (3 * i) ≥ key
    · rw [if_pos hge]
      exact ⟨i, rfl, by omega, hlt, fun _ => hge⟩
    · rw [if_neg hge]
      have e1 : ((i : Int) + 1) = ((i + 1 : Nat) : Int) := by push_cast; ring
      rw [e1]
      apply ih (i + 1) (by omega)
      intro j hj
      by_cases hji : j = i
      · subst hji; omega
      · exact hlt j (by omega)

theorem insertBuf_lt (b : Nat → Int) (p c : Nat) (key : Int) (rid : RecordId) (j : Nat)
    (hj : j < 3 * p) : insertBuf b p c key rid j = b j := by
  unfold insertBuf putEntry shiftBuf
  split_ifs <;> first | rfl | omega

theorem insertBuf_key (b : Nat → Int) (p c : Nat) (key : Int) (rid : RecordId) :
    insertBuf b p c key rid (3 * p) = key := by
  unfold insertBuf putEntry shiftBuf
  split_ifs <;> first | rfl | omega

theorem insertBuf_pid (b : Nat → Int) (p c : Nat) (key : Int) (rid : RecordId) :
    insertBuf b p c key rid (3 * p + 1) = rid.pid := by
  unfold insertBuf putEntry shiftBuf
  split_ifs <;> first | rfl | omega

theorem insertBuf_sid (b : Nat → Int) (p c : Nat) (key : Int) (rid : RecordId) :
    insertBuf b p c key rid (3 * p + 2) = rid.sid := by
  unfold insertBuf putEntry shiftBuf
  split_ifs <;> first | rfl | omega

theorem insertBuf_shifted (b : Nat → Int) (p c : Nat) (key : Int) (rid : RecordId) (j : Nat)
    (hp : p ≤ c) (h1 : 3 * p ≤ j) (h2 : j < 3 * c) :
    insertBuf b p c key rid (j + 3) = b j := by
  unfold insertBuf putEntry shiftBuf
  split_ifs <;> first | rfl | omega

theorem insertBuf_ge (b : Nat → Int) (p c : Nat) (key : Int) (rid : RecordId) (j : Nat)
    (hp : p ≤ c) (hj : 3 * (c + 1) ≤ j) : insertBuf b p c key rid j = b j := by
  unfold insertBuf putEntry shiftBuf
  split_ifs <;> first | rfl | omega

theorem node_eta (n : BTLeafNode) (h0 : 0 ≤ n.keyCount) :
    n = ⟨n.buffer, ((n.keyCount.toNat : Nat) : Int)⟩ := by
  cases n with
  | mk b kc =>
    simp only [BTLeafNode.mk.injEq, true_and]
    simp only [] at h0
    omega

theorem insert_full (n : BTLeafNode) (key : Int) (rid : RecordId)
    (h : n.keyCount ≥ g_maxKeyCount) : insert n key rid = some (-1, n) := by
  have hcf : checkFull n = true := by
    unfold checkFull
    rw [if_pos h]
  unfold insert
  rw [hcf, if_pos rfl]

theorem insert_nat (b : Nat → Int) (c : Nat) (key : Int) (rid : RecordId) (hc : c < 85) :
    ∃ p : Nat, p ≤ c ∧ (∀ j, j < p → b (3 * j) < key) ∧ (p < c → key ≤ b (3 * p)) ∧
      insert ⟨b, c⟩ key rid = some (0, ⟨insertBuf b p c key rid, ((c + 1 : Nat) : Int)⟩) := by
  obtain ⟨p, hscan, hpc, hlt, hge⟩ :=
    insertScan_nat b c key (by omega) c 0 (by omega) (fun j hj => absurd hj (by omega))
  refine ⟨p, hpc, hlt, hge, ?_⟩
  have hcf : checkFull ⟨b, c⟩ = false := by
    unfold checkFull g_maxKeyCount
    rw [if_neg (by simp only []; omega)]
  unfold insert
  rw [hcf, if_neg Bool.false_ne_true]
  simp only [Int.toNat_ofNat, Nat.cast_zero]
  simp only [Nat.cast_zero] at hscan
  rw [hscan]
  simp only []
  by_cases hp : p = c
  · subst hp
    rw [if_neg (by simp)]
    simp only []
    rw [insertToBuffer_nat b p p hc hc]
    simp only [Option.some.injEq, Prod.mk.injEq, true_and]
    have : shiftBuf b p (p - p) = b := by
      funext j
      unfold shiftBuf
      rw [if_neg (by omega)]
    unfold insertBuf
    rw [this]
    simp
  · rw [if_pos (by simp only [ne_eq, Nat.cast_inj]; exact hp)]
    unfold shift
    have e1 : ((c : Int) - (p : Int)).toNat = c - p := by omega
    simp only []
    rw [e1, shiftLoop_nat p c hc (c - p) b (by omega)]
    simp only []
    rw [insertToBuffer_nat _ c p hc (by omega)]
    simp only [Option.some.injEq, Prod.mk.injEq, true_and]
    unfold insertBuf
    simp

theorem sorted_nat (b : Nat → Int) (c : Nat) (hc : c ≤ 85) :
    Sorted ⟨b, c⟩ ↔ ∀ i : Nat, i + 1 < c → b (3 * i) ≤ b (3 * (i + 1)) := by
  constructor
  · intro hs i hi
    obtain ⟨k1, r1, k2, r2, h1, h2, hle⟩ := hs (i : Int) (by omega)
      (by unfold getKeyCount; simp only []; omega)
    have e1 : ((i : Int) + 1) = ((i + 1 : Nat) : Int) := by push_cast; ring
    rw [readEntry_nat b c i (by omega) hc] at h1
    rw [e1, readEntry_nat b c (i + 1) (by omega) hc] at h2
    simp only [Option.some.injEq, Prod.mk.injEq, true_and] at h1 h2
    rw [h1.1, h2.1]
    exact hle
  · intro hs i hi0 hi
    unfold getKeyCount at hi
    simp only [] at hi
    lift i to ℕ using hi0
    have e1 : ((i : Int) + 1) = ((i + 1 : Nat) : Int) := by push_cast; ring
    refine ⟨b (3 * i), ⟨b (3 * i + 1), b (3 * i + 2)⟩, b (3 * (i + 1)),
      ⟨b (3 * (i + 1) + 1), b (3 * (i + 1) + 2)⟩,
      readEntry_nat b c i (by omega) hc 0 ⟨0, 0⟩, ?_, hs i (by omega)⟩
    rw [e1]
    exact readEntry_nat b c (i + 1) (by omega) hc 0 ⟨0, 0⟩

theorem insertBuf_sorted (b : Nat → Int) (p c : Nat) (key : Int) (rid : RecordId)
    (hpc : p ≤ c) (hlt : ∀ j, j < p → b (3 * j) < key) (hge : p < c → key ≤ b (3 * p))
    (hs : ∀ i : Nat, i + 1 < c → b (3 * i) ≤ b (3 * (i + 1))) :
    ∀ i : Nat, i + 1 < c + 1 →
      insertBuf b p c key rid (3 * i) ≤ insertBuf b p c key rid (3 * (i + 1)) := by
  intro i hi
  rcases Nat.lt_trichotomy (i + 1) p with h | h | h
  · rw [insertBuf_lt b p c key rid _ (by omega), insertBuf_lt b p c key rid _ (by omega)]
    exact hs i (by omega)
  · rw [insertBuf_lt b p c key rid _ (by omega)]
    have : 3 * (i + 1) = 3 * p := by omega
    rw [this, insertBuf_key]
    exact le_of_lt (hlt i (by omega))
  · by_cases hip : i = p
    · subst hip
      rw [insertBuf_key]
      have : 3 * (i + 1) = 3 * i + 3 := by omega
      rw [this, insertBuf_shifted b i c key rid (3 * i) hpc (by omega) (by omega)]
      exact hge (by omega)
    · obtain ⟨m, rfl⟩ : ∃ m, i = m + 1 := ⟨i - 1, by omega⟩
      have e1 : 3 * (m + 1) = 3 * m + 3 := by omega
      have e2 : 3 * (m + 1 + 1) = 3 * (m + 1) + 3 := by omega
      have h3 := hs m (by omega)
      rw [e2, insertBuf_shifted b p c key rid (3 * (m + 1)) hpc (by omega) (by omega), e1,
        insertBuf_shifted b p c key rid (3 * m) hpc (by omega) (by omega)]
      rw [e1] at h3
      exact h3

/-! ## `insert` -/

theorem insert_preserves (n : BTLeafNode) (key : Int) (rid : RecordId)
    (h0 : 0 ≤ n.keyCount) (h1 : n.keyCount ≤ 85) (hs : Sorted n) :
    ∃ rc n', insert n key rid = some (rc, n') ∧ Sorted n' ∧
      0 ≤ n'.keyCount ∧ n'.keyCount ≤ 85 := by
  obtain ⟨b, kc⟩ := n
  simp only [] at h0 h1
  lift kc to ℕ using h0
  by_cases hfull : (kc : Int) ≥ 85
  · exact ⟨-1, ⟨b, kc⟩, insert_full _ key rid hfull, hs, by simp, h1⟩
  · have hc : kc < 85 := by omega
    obtain ⟨p, hpc, hlt, hge, hins⟩ := insert_nat b kc key rid hc
    refine ⟨0, _, hins, ?_, by simp only []; omega, by simp only []; omega⟩
    rw [sorted_nat _ _ (by omega)]
    exact insertBuf_sorted b p kc key rid hpc hlt hge ((sorted_nat b kc (by omega)).1 hs)

theorem insertAll_sorted (ops : List (Int × RecordId)) :
    ∀ n : BTLeafNode, 0 ≤ n.keyCount → n.keyCount ≤ 85 → Sorted n →
      ∃ n', insertAll n ops = some n' ∧ Sorted n' ∧ 0 ≤ n'.keyCount ∧ n'.keyCount ≤ 85 := by
  induction ops with
  | nil =>
    intro n h0 h1 hs
    exact ⟨n, rfl, hs, h0, h1⟩
  | cons op rest ih =>
    intro n h0 h1 hs
    obtain ⟨key, rid⟩ := op
    obtain ⟨rc, n1, hins, hs1, h01, h11⟩ := insert_preserves n key rid h0 h1 hs
    obtain ⟨n', hall, hs', h0', h1'⟩ := ih n1 h01 h11 hs1
    refine ⟨n', ?_, hs', h0', h1'⟩
    unfold insertAll
    rw [hins]
    exact hall

theorem sorted_empty (b0 : Nat → Int) : Sorted ⟨b0, 0⟩ := by
  intro i hi0 hi
  unfold getKeyCount at hi
  simp only [] at hi
  omega

/-- C1. Every finite sequence of `insert` calls on an initially empty leaf runs to its end
and leaves a sorted node (`readEntry(i).key ≤ readEntry(i+1).key` for every valid `i`);
and `insert` preserves sortedness: on a sorted node it returns, with success or with an
error, and the node is sorted afterwards. -/
theorem insert_keeps_sorted :
    (∀ (b0 : Nat → Int) (ops : List (Int × RecordId)),
      ∃ n', insertAll ⟨b0, 0⟩ ops = some n' ∧ Sorted n') ∧
    (∀ (n : BTLeafNode) (key : Int) (rid : RecordId), 0 ≤ getKeyCount n → Sorted n →
      ∃ rc n', insert n key rid = some (rc, n') ∧ Sorted n') := by
  constructor
  · intro b0 ops
    obtain ⟨n', h, hs, _, _⟩ :=
      insertAll_sorted ops ⟨b0, 0⟩ (le_refl _) (by simp) (sorted_empty b0)
    exact ⟨n', h, hs⟩
  · intro n key rid h0 hs
    unfold getKeyCount at h0
    by_cases hfull : n.keyCount ≥ g_maxKeyCount
    · exact ⟨-1, n, insert_full n key rid hfull, hs⟩
    · unfold g_maxKeyCount at hfull
      obtain ⟨rc, n', h, hs', _, _⟩ := insert_preserves n key rid h0 (by omega) hs
      exact ⟨rc, n', h, hs'⟩

/-- C1 at a concrete input: the one-entry leaf holding key 7 is sorted, and `insert` of
key 3 returns and leaves it sorted. -/
theorem insert_keeps_sorted_witness :
    ∃ rc n', insert leaf7 3 ⟨1, 2⟩ = some (rc, n') ∧
      Sorted n' :=
  insert_keeps_sorted.2 leaf7 3 ⟨1, 2⟩ (by decide)
    (by
      intro i hi0 hi
      unfold getKeyCount leaf7 at hi
      simp only [] at hi
      omega)

/-- C2. On a leaf with `0 ≤ keyCount < g_maxKeyCount`, `insert(key, rid)` returns 0 and
`getKeyCount()` grows by one; with `p` the least index whose old key is `≥ key`
(`p = keyCount` when there is none), the entries below `p` are unchanged, entry `p` is
`(key, rid)` verbatim, and each old entry `i ≥ p` is now entry `i + 1`. -/
theorem insert_places_entry (n : BTLeafNode) (key : Int) (rid : RecordId)
    (h0 : 0 ≤ getKeyCount n) (h1 : getKeyCount n < g_maxKeyCount) :
    ∃ (n' : BTLeafNode) (p : Int), insert n key rid = some (0, n') ∧
      getKeyCount n' = getKeyCount n + 1 ∧ 0 ≤ p ∧ p ≤ getKeyCount n ∧
      (∀ i, 0 ≤ i → i < p → ∃ k r, readEntry n i 0 ⟨0, 0⟩ = some (0, k, r) ∧ k < key) ∧
      (p < getKeyCount n → ∃ k r, readEntry n p 0 ⟨0, 0⟩ = some (0, k, r) ∧ k ≥ key) ∧
      (∀ i k0 r0, 0 ≤ i → i < p → readEntry n' i k0 r0 = readEntry n i k0 r0) ∧
      (∀ k0 r0, readEntry n' p k0 r0 = some (0, key, rid)) ∧
      (∀ i k0 r0, p ≤ i → i < getKeyCount n →
        readEntry n' (i + 1) k0 r0 = readEntry n i k0 r0) := by
  obtain ⟨b, kc⟩ := n
  unfold getKeyCount g_maxKeyCount at *
  simp only [] at h0 h1 ⊢
  lift kc to ℕ using h0
  have hc : kc < 85 := by omega
  obtain ⟨p, hpc, hlt, hge, hins⟩ := insert_nat b kc key rid hc
  refine ⟨_, (p : Int), hins, by push_cast; ring, by omega, by omega, ?_, ?_, ?_, ?_, ?_⟩
  · intro i hi0 hip
    lift i to ℕ using hi0
    exact ⟨_, _, readEntry_nat b kc i (by omega) (by omega) 0 ⟨0, 0⟩, hlt i (by omega)⟩
  · intro hp
    exact ⟨_, _, readEntry_nat b kc p (by omega) (by omega) 0 ⟨0, 0⟩, hge (by omega)⟩
  · intro i k0 r0 hi0 hip
    lift i to ℕ using hi0
    rw [readEntry_nat _ (kc + 1) i (by omega) (by omega),
      readEntry_nat b kc i (by omega) (by omega),
      insertBuf_lt _ _ _ _ _ _ (by omega), insertBuf_lt _ _ _ _ _ _ (by omega),
      insertBuf_lt _ _ _ _ _ _ (by omega)]
  · intro k0 r0
    rw [readEntry_nat _ (kc + 1) p (by omega) (by omega), insertBuf_key, insertBuf_pid,
      insertBuf_sid]
  · intro i k0 r0 hpi hi
    have hi0 : 0 ≤ i := by omega
    lift i to ℕ using hi0
    have e1 : ((i : Int) + 1) = ((i + 1 : Nat) : Int) := by push_cast; ring
    have e2 : 3 * (i + 1) = 3 * i + 3 := by omega
    have e3 : 3 * i + 3 + 1 = 3 * i + 1 + 3 := by omega
    have e4 : 3 * i + 3 + 2 = 3 * i + 2 + 3 := by omega
    rw [e1, readEntry_nat _ (kc + 1) (i + 1) (by omega) (by omega),
      readEntry_nat b kc i (by omega) (by omega), e2, e3, e4,
      insertBuf_shifted _ _ _ _ _ _ hpc (by omega) (by omega),
      insertBuf_shifted _ _ _ _ _ _ hpc (by omega) (by omega),
      insertBuf_shifted _ _ _ _ _ _ hpc (by omega) (by omega)]

/-- C2 at a concrete input: `insert(3, (1, 2))` into the leaf holding `(7, (0, 0))`. -/
theorem insert_places_entry_witness :
    ((0 : Int) ≤ getKeyCount leaf7 ∧ getKeyCount leaf7 < g_maxKeyCount) ∧
    ∃ (n' : BTLeafNode) (p : Int), insert leaf7 3 ⟨1, 2⟩ = some (0, n') ∧
      getKeyCount n' = getKeyCount leaf7 + 1 ∧ 0 ≤ p ∧ p ≤ getKeyCount leaf7 ∧
      (∀ i, 0 ≤ i → i < p → ∃ k r, readEntry leaf7 i 0 ⟨0, 0⟩ = some (0, k, r) ∧ k < 3) ∧
      (p < getKeyCount leaf7 → ∃ k r, readEntry leaf7 p 0 ⟨0, 0⟩ = some (0, k, r) ∧ k ≥ 3) ∧
      (∀ i k0 r0, 0 ≤ i → i < p → readEntry n' i k0 r0 = readEntry leaf7 i k0 r0) ∧
      (∀ k0 r0, readEntry n' p k0 r0 = some (0, 3, ⟨1, 2⟩)) ∧
      (∀ i k0 r0, p ≤ i → i < getKeyCount leaf7 →
        readEntry n' (i + 1) k0 r0 = readEntry leaf7 i k0 r0) :=
  ⟨by decide, insert_places_entry leaf7 3 ⟨1, 2⟩ (by decide) (by decide)⟩

/-- C3. On a leaf with `keyCount ≥ 0`, `insert` returns a non-zero code exactly when
`keyCount ≥ g_maxKeyCount`; and when it does, the node is the one before the call:
`getKeyCount()`, every `readEntry(i)` and `getNextNodePtr()` are unchanged. -/
theorem insert_error_iff_full (n : BTLeafNode) (key : Int) (rid : RecordId)
    (h0 : 0 ≤ getKeyCount n) :
    ∃ rc n', insert n key rid = some (rc, n') ∧
      (rc ≠ 0 ↔ getKeyCount n ≥ g_maxKeyCount) ∧
      (rc ≠ 0 → n' = n ∧ getKeyCount n' = getKeyCount n ∧
        (∀ i k0 r0, readEntry n' i k0 r0 = readEntry n i k0 r0) ∧
        getNextNodePtr n' = getNextNodePtr n) := by
  by_cases hfull : n.keyCount ≥ g_maxKeyCount
  · refine ⟨-1, n, insert_full n key rid hfull, ?_, ?_⟩
    · unfold getKeyCount
      simp [hfull]
    · intro _
      exact ⟨rfl, rfl, fun _ _ _ => rfl, rfl⟩
  · obtain ⟨b, kc⟩ := n
    unfold getKeyCount g_maxKeyCount at *
    simp only [] at h0 hfull ⊢
    lift kc to ℕ using h0
    obtain ⟨p, _, _, _, hins⟩ := insert_nat b kc key rid (by omega)
    refine ⟨0, _, hins, ?_, ?_⟩
    · simp only [ne_eq, not_true_eq_false, false_iff]
      exact hfull
    · intro h
      exact absurd rfl h

/-- C3 at a concrete input: a leaf holding 85 entries rejects `insert`. -/
theorem insert_error_iff_full_witness :
    ∃ rc n', insert fullLeaf 3 ⟨1, 2⟩ = some (rc, n') ∧
      (rc ≠ 0 ↔ getKeyCount fullLeaf ≥ g_maxKeyCount) ∧
      (rc ≠ 0 → n' = fullLeaf ∧
        getKeyCount n' = getKeyCount fullLeaf ∧
        (∀ i k0 r0, readEntry n' i k0 r0 = readEntry fullLeaf i k0 r0) ∧
        getNextNodePtr n' = getNextNodePtr fullLeaf) :=
  insert_error_iff_full fullLeaf 3 ⟨1, 2⟩ (by decide)

/-! ## `insertAndSplit` -/

theorem insert_returns (n : BTLeafNode) (key : Int) (rid : RecordId) (h0 : 0 ≤ n.keyCount) :
    ∃ rc n', insert n key rid = some (rc, n') ∧ getNextNodePtr n' = getNextNodePtr n ∧
      ((n.keyCount < 85 ∧ rc = 0 ∧ n'.keyCount = n.keyCount + 1) ∨
        (85 ≤ n.keyCount ∧ rc = -1 ∧ n' = n)) := by
  by_cases hfull : n.keyCount ≥ g_maxKeyCount
  · exact ⟨-1, n, insert_full n key rid hfull, rfl, Or.inr ⟨hfull, rfl, rfl⟩⟩
  · obtain ⟨b, kc⟩ := n
    unfold g_maxKeyCount at hfull
    simp only [] at h0 hfull
    lift kc to ℕ using h0
    obtain ⟨p, hpc, _, _, hins⟩ := insert_nat b kc key rid (by omega)
    refine ⟨0, _, hins, ?_, Or.inl ⟨by simp only []; omega, rfl, by push_cast; ring⟩⟩
    unfold getNextNodePtr
    exact insertBuf_ge b p kc key rid 255 hpc (by omega)

theorem insertAndSplit_eq (n : BTLeafNode) (key : Int) (rid : RecordId) (sibling : BTLeafNode)
    (siblingKey : Int) (hs : sibling.keyCount ≤ 0) (rc : Int) (n1 : BTLeafNode)
    (hins : insert n key rid = some (rc, n1)) :
    insertAndSplit n key rid sibling siblingKey = some (0, n1, sibling, siblingKey) := by
  unfold insertAndSplit
  rw [hins]
  simp only []
  rw [readEntry_out sibling 0 (by omega)]

theorem insertAll_count (ops : List (Int × RecordId)) :
    ∀ n : BTLeafNode, 0 ≤ n.keyCount → n.keyCount + ops.length ≤ 85 →
      ∃ n', insertAll n ops = some n' ∧ n'.keyCount = n.keyCount + ops.length := by
  induction ops with
  | nil =>
    intro n _ _
    exact ⟨n, rfl, by simp⟩
  | cons op rest ih =>
    intro n h0 h1
    obtain ⟨key, rid⟩ := op
    simp only [List.length_cons, Nat.cast_add, Nat.cast_one] at h1
    obtain ⟨rc, n1, hins, _, hcase⟩ := insert_returns n key rid h0
    rcases hcase with ⟨_, _, hk⟩ | ⟨hfull, _, _⟩
    · obtain ⟨n', hall, hk'⟩ := ih n1 (by omega) (by omega)
      refine ⟨n', ?_, ?_⟩
      · unfold insertAll
        rw [hins]
        exact hall
      · simp only [List.length_cons, Nat.cast_add, Nat.cast_one]
        omega
    · omega

/-- C4, the code at its failing inputs.  A leaf populated by one `insert`, then
`insertAndSplit(3, (1, 2))` with an empty sibling: the call returns 0 and the sibling
still holds no entry.  A leaf populated by any 85 inserts (so at capacity): the call
returns 0, this node still holds 85 entries and the sibling none, so the counts add up to
85 and not to 86. -/
theorem insertAndSplit_sibling_stays_empty :
    (∃ n n1 s1 k1, insertAll emptyLeaf [(7, ⟨0, 0⟩)] = some n ∧
      insertAndSplit n 3 ⟨1, 2⟩ emptyLeaf 0 = some (0, n1, s1, k1) ∧
      getKeyCount n = 1 ∧ getKeyCount n1 = 2 ∧ getKeyCount s1 = 0) ∧
    (∀ ops : List (Int × RecordId), ops.length = 85 →
      ∃ n n1 s1 k1, insertAll emptyLeaf ops = some n ∧
        insertAndSplit n 3 ⟨1, 2⟩ emptyLeaf 0 = some (0, n1, s1, k1) ∧
        getKeyCount n = 85 ∧ getKeyCount n1 = 85 ∧ getKeyCount s1 = 0) := by
  refine ⟨⟨_, _, _, _, rfl, rfl, by decide, by decide, by decide⟩, ?_⟩
  intro ops hlen
  obtain ⟨n, hall, hk⟩ := insertAll_count ops emptyLeaf (by decide)
    (by rw [hlen]; decide)
  have hk85 : n.keyCount = 85 := by
    rw [hk, hlen]
    decide
  exact ⟨n, n, emptyLeaf, 0, hall,
    insertAndSplit_eq n 3 ⟨1, 2⟩ emptyLeaf 0 (by decide) (-1) n
      (insert_full n 3 ⟨1, 2⟩ (by rw [hk85]; decide)),
    hk85, hk85, by decide⟩

/-- C5, the code at one input.  The leaf holds `(7, (0, 0))`; after
`insertAndSplit(3, (1, 2))` with an empty sibling this node holds both entries of the
sorted sequence `(3, (1, 2)), (7, (0, 0))` and the sibling holds none:
`sibling.readEntry(0)` returns an error. -/
theorem insertAndSplit_keeps_all_entries :
    ∃ n n1 s1 k1, insertAll emptyLeaf [(7, ⟨0, 0⟩)] = some n ∧
      insertAndSplit n 3 ⟨1, 2⟩ emptyLeaf 0 = some (0, n1, s1, k1) ∧
      getKeyCount n1 = 2 ∧
      readEntry n1 0 0 ⟨0, 0⟩ = some (0, 3, ⟨1, 2⟩) ∧
      readEntry n1 1 0 ⟨0, 0⟩ = some (0, 7, ⟨0, 0⟩) ∧
      getKeyCount s1 = 0 ∧
      readEntry s1 0 0 ⟨0, 0⟩ = some (-1, 0, ⟨0, 0⟩) :=
  ⟨_, _, _, _, rfl, rfl, by decide, by decide, by decide, by decide, by decide⟩

/-- C6, the code at one input.  `insertAndSplit(3, (1, 2), sibling, siblingKey)` on an
empty leaf with an empty sibling and `siblingKey = 99` on entry returns 0; afterwards
`sibling.readEntry(0)` returns an error and `siblingKey` is still 99. -/
theorem insertAndSplit_siblingKey_untouched :
    ∃ n1 s1 k1,
      insertAndSplit emptyLeaf 3 ⟨1, 2⟩ emptyLeaf 99 = some (0, n1, s1, k1) ∧
      k1 = 99 ∧ readEntry s1 0 0 ⟨0, 0⟩ = some (-1, 0, ⟨0, 0⟩) ∧
      readEntry n1 0 0 ⟨0, 0⟩ = some (0, 3, ⟨1, 2⟩) :=
  ⟨_, _, _, rfl, by decide, by decide, by decide⟩

/-- C7 fails as stated: the leaf's next pointer is 42 and the empty sibling's is 0; after
`insertAndSplit` the sibling's next pointer is 0, not 42. -/
theorem insertAndSplit_no_relink_counterexample :
    ∃ n1 s1 k1,
      insertAndSplit ⟨fun j => if j = 255 then 42 else 0, 0⟩ 3 ⟨1, 2⟩ emptyLeaf 0 =
        some (0, n1, s1, k1) ∧
      getNextNodePtr ⟨fun j => if j = 255 then 42 else 0, 0⟩ = 42 ∧
      getNextNodePtr s1 = 0 ∧ getNextNodePtr s1 ≠ 42 :=
  ⟨_, _, _, rfl, by decide, by decide, by decide⟩

/-- C7 as amended.  For every leaf with `keyCount ≥ 0` and every empty sibling,
`insertAndSplit` returns 0 and touches neither next pointer: the sibling's
`getNextNodePtr()` is what it was before the call, and so is this node's. -/
theorem insertAndSplit_next_pointers_unchanged (n : BTLeafNode) (key : Int) (rid : RecordId)
    (sibling : BTLeafNode) (siblingKey : Int) (h0 : 0 ≤ getKeyCount n)
    (hs : getKeyCount sibling = 0) :
    ∃ n1 s1 k1, insertAndSplit n key rid sibling siblingKey = some (0, n1, s1, k1) ∧
      getNextNodePtr s1 = getNextNodePtr sibling ∧
      getNextNodePtr n1 = getNextNodePtr n := by
  unfold getKeyCount at h0 hs
  obtain ⟨rc, n1, hins, hnext, _⟩ := insert_returns n key rid h0
  exact ⟨n1, sibling, siblingKey,
    insertAndSplit_eq n key rid sibling siblingKey (by omega) rc n1 hins, rfl, hnext⟩

/-- C7 as amended, at a concrete input. -/
theorem insertAndSplit_next_pointers_unchanged_witness :
    ∃ n1 s1 k1,
      insertAndSplit ⟨fun j => if j = 255 then 42 else 0, 0⟩ 3 ⟨1, 2⟩ emptyLeaf 0 =
        some (0, n1, s1, k1) ∧
      getNextNodePtr s1 = getNextNodePtr emptyLeaf ∧
      getNextNodePtr n1 = getNextNodePtr ⟨fun j => if j = 255 then 42 else 0, 0⟩ :=
  insertAndSplit_next_pointers_unchanged ⟨fun j => if j = 255 then 42 else 0, 0⟩ 3 ⟨1, 2⟩
    emptyLeaf 0 (by decide) (by decide)

/-! ## `locate` and `readEntry` -/

theorem readEntry_ok_range (n : BTLeafNode) (eid k0 k : Int) (r0 r : RecordId)
    (h : readEntry n eid k0 r0 = some (0, k, r)) : 0 ≤ eid ∧ eid < n.keyCount := by
  by_contra hc
  rw [readEntry_out n eid hc] at h
  simp only [Option.some.injEq, Prod.mk.injEq] at h
  omega

theorem locateLoop_sound (n : BTLeafNode) (searchKey eid : Int) :
    ∀ (k i : Nat) (e : Int),
      (∀ j : Nat, j < i →
        ∃ key r, readEntry n j 0 ⟨0, 0⟩ = some (0, key, r) ∧ key < searchKey) →
      locateLoop n searchKey eid k i = some (0, e) →
      ∃ m : Nat, e = m ∧
        (∃ key r, readEntry n m 0 ⟨0, 0⟩ = some (0, key, r) ∧ key ≥ searchKey) ∧
        ∀ j : Nat, j < m →
          ∃ key r, readEntry n j 0 ⟨0, 0⟩ = some (0, key, r) ∧ key < searchKey := by
  intro k
  induction k with
  | zero =>
    intro i e _ h
    unfold locateLoop at h
    simp only [Option.some.injEq, Prod.mk.injEq] at h
    omega
  | succ k ih =>
    intro i e hlt h
    unfold locateLoop at h
    cases hr : readEntry n i 0 ⟨0, 0⟩ with
    | none =>
      rw [hr] at h
      exact absurd h (by simp)
    | some res =>
      obtain ⟨rc, keyEntry, r⟩ := res
      rw [hr] at h
      simp only [] at h
      by_cases hrc : rc ≠ 0
      · rw [if_pos hrc] at h
        exact absurd h (by simp)
      · rw [if_neg hrc] at h
        have hrc0 : rc = 0 := not_not.mp hrc
        subst hrc0
        by_cases hge : keyEntry ≥ searchKey
        · rw [if_pos hge] at h
          simp only [Option.some.injEq, Prod.mk.injEq, true_and] at h
          exact ⟨i, h.symm, ⟨keyEntry, r, hr, hge⟩, hlt⟩
        · rw [if_neg hge] at h
          have e1 : ((i : Int) + 1) = ((i + 1 : Nat) : Int) := by push_cast; ring
          rw [e1] at h
          apply ih (i + 1) e _ h
          intro j hj
          by_cases hji : j = i
          · subst hji
            exact ⟨keyEntry, r, hr, by omega⟩
          · exact hlt j (by omega)

theorem locateLoop_nat (b : Nat → Int) (c : Nat) (searchKey eid : Int) (hc : c ≤ 85) :
    ∀ (k i : Nat), i + k = c → (∀ j, j < i → b (3 * j) < searchKey) →
      (∃ m : Nat, m < c ∧ locateLoop ⟨b, c⟩ searchKey eid k i = some (0, (m : Int)) ∧
        searchKey ≤ b (3 * m) ∧ ∀ j, j < m → b (3 * j) < searchKey) ∨
      (locateLoop ⟨b, c⟩ searchKey eid k i = some (-1, eid) ∧
        ∀ j, j < c → b (3 * j) < searchKey) := by
  intro k
  induction k with
  | zero =>
    intro i hi hlt
    right
    refine ⟨by unfold locateLoop; rfl, ?_⟩
    intro j hj
    exact hlt j (by omega)
  | succ k ih =>
    intro i hi hlt
    unfold locateLoop
    rw [readEntry_nat b c i (by omega) hc]
    simp only [ne_eq, not_true_eq_false, if_false]
    by_cases hge : b (3 * i) ≥ searchKey
    · rw [if_pos hge]
      left
      exact ⟨i, by omega, rfl, hge, hlt⟩
    · rw [if_neg hge]
      have e1 : ((i : Int) + 1) = ((i + 1 : Nat) : Int) := by push_cast; ring
      rw [e1]
      apply ih (i + 1) (by omega)
      intro j hj
      by_cases hji : j = i
      · subst hji; omega
      · exact hlt j (by omega)

theorem locate_iff (n : BTLeafNode) (searchKey eid : Int) (h : n.keyCount ≤ 85) :
    ∃ rc eid', locate n searchKey eid = some (rc, eid') ∧
      (rc = 0 ↔ (0 ≤ eid ∧ eid < n.keyCount ∧
        ∃ i, 0 ≤ i ∧ i < n.keyCount ∧
          ∃ k r, readEntry n i 0 ⟨0, 0⟩ = some (0, k, r) ∧ k ≥ searchKey)) := by
  by_cases hg : n.keyCount ≤ 0 ∨ eid < 0 ∨ eid ≥ n.keyCount
  · refine ⟨-1, eid, by unfold locate; rw [if_pos hg], ?_⟩
    constructor
    · intro h0
      omega
    · rintro ⟨h1, h2, -⟩
      omega
  · obtain ⟨b, kc⟩ := n
    simp only [] at h hg ⊢
    have hk0 : 0 ≤ kc := by omega
    lift kc to ℕ using hk0
    have hloc : locate ⟨b, kc⟩ searchKey eid = locateLoop ⟨b, kc⟩ searchKey eid kc 0 := by
      unfold locate
      rw [if_neg hg]
      simp
    rcases locateLoop_nat b kc searchKey eid (by omega) kc 0 (by omega)
      (fun j hj => absurd hj (by omega)) with ⟨m, hm, hl, hge, _⟩ | ⟨hl, hall⟩
    · refine ⟨0, m, by rw [hloc]; simpa using hl, ?_⟩
      constructor
      · intro _
        exact ⟨by omega, by omega, m, by omega, by omega, _, _,
          readEntry_nat b kc m hm (by omega) 0 ⟨0, 0⟩, hge⟩
      · intro _
        rfl
    · refine ⟨-1, eid, by rw [hloc]; simpa using hl, ?_⟩
      constructor
      · intro h0
        omega
      · rintro ⟨_, _, i, hi0, hi, k, r, hr, hk⟩
        lift i to ℕ using hi0
        rw [readEntry_nat b kc i (by omega) (by omega)] at hr
        simp only [Option.some.injEq, Prod.mk.injEq, true_and] at hr
        have := hall i (by omega)
        omega

/-- C8, the code at its failing input.  In the leaf built by inserting keys 2, 5, 5, 9
entry 1 has key `5 ≥ 5`, and `locate(5, eid)` returns 0 with index 1 when `eid` is 0 on
entry, but returns an error and leaves `eid` as it was when `eid` is 4 or -1 on entry.
On every leaf, `locate` returns an error whenever the value `eid` holds on entry is
outside `[0, keyCount)`, whatever the entries and `searchKey` are. -/
theorem locate_fails_on_out_of_range_eid :
    (∃ n, insertAll emptyLeaf inserts2559 = some n ∧
      (∃ r, readEntry n 1 0 ⟨0, 0⟩ = some (0, 5, r)) ∧
      locate n 5 0 = some (0, 1) ∧
      locate n 5 4 = some (-1, 4) ∧
      locate n 5 (-1) = some (-1, -1)) ∧
    (∀ (n : BTLeafNode) (searchKey eid : Int), ¬ (0 ≤ eid ∧ eid < getKeyCount n) →
      locate n searchKey eid = some (-1, eid)) := by
  refine ⟨⟨_, rfl, ⟨_, rfl⟩, by decide, by decide, by decide⟩, ?_⟩
  intro n searchKey eid h
  unfold getKeyCount at h
  unfold locate
  rw [if_pos (by omega)]

/-- C9. Whenever `locate(searchKey, eid)` returns 0, the output `eid` is the least index
in `[0, keyCount)` whose key is `≥ searchKey`: `readEntry` there returns a key
`≥ searchKey`, and every entry at a lower index has a key `< searchKey`.  For the leaf
built by inserting keys 2, 5, 5, 9 (and `eid` in `[0, 4)` on entry), `locate(5)` outputs 1
and `locate(0)` outputs 0. -/
theorem locate_outputs_least_index :
    (∀ (n : BTLeafNode) (searchKey eid eid' : Int),
      locate n searchKey eid = some (0, eid') →
        0 ≤ eid' ∧ eid' < getKeyCount n ∧
        (∃ k r, readEntry n eid' 0 ⟨0, 0⟩ = some (0, k, r) ∧ k ≥ searchKey) ∧
        ∀ j, 0 ≤ j → j < eid' →
          ∃ k r, readEntry n j 0 ⟨0, 0⟩ = some (0, k, r) ∧ k < searchKey) ∧
    (∃ n, insertAll emptyLeaf inserts2559 = some n ∧
      ∀ eid ∈ [(0 : Int), 1, 2, 3],
        locate n 5 eid = some (0, 1) ∧ locate n 0 eid = some (0, 0)) := by
  refine ⟨?_, ⟨_, rfl, by decide⟩⟩
  intro n searchKey eid eid' h
  unfold locate at h
  by_cases hg : n.keyCount ≤ 0 ∨ eid < 0 ∨ eid ≥ n.keyCount
  · rw [if_pos hg] at h
    simp only [Option.some.injEq, Prod.mk.injEq] at h
    omega
  · rw [if_neg hg] at h
    obtain ⟨m, hm, ⟨k, r, hr, hk⟩, hlt⟩ :=
      locateLoop_sound n searchKey eid n.keyCount.toNat 0 eid'
        (fun j hj => absurd hj (by omega)) (by simpa using h)
    subst hm
    have hrange := readEntry_ok_range n m 0 k ⟨0, 0⟩ r hr
    refine ⟨hrange.1, hrange.2, ⟨k, r, hr, hk⟩, ?_⟩
    intro j hj0 hjm
    lift j to ℕ using hj0
    exact hlt j (by omega)

/-- C9 at a concrete input: on the one-entry leaf with key 7, `locate(3, 0)` returns 0
and outputs index 0. -/
theorem locate_outputs_least_index_witness :
    locate leaf7 3 0 = some (0, 0) ∧
    ((0 : Int) ≤ 0 ∧ 0 < getKeyCount leaf7 ∧
      (∃ k r, readEntry leaf7 0 0 ⟨0, 0⟩ = some (0, k, r) ∧
        k ≥ 3) ∧
      ∀ j, 0 ≤ j → j < 0 →
        ∃ k r, readEntry leaf7 j 0 ⟨0, 0⟩ = some (0, k, r) ∧
          k < 3) :=
  ⟨by decide,
    locate_outputs_least_index.1 leaf7 3 0 0 (by decide)⟩

/-- C10. On a leaf with `keyCount ≤ g_maxKeyCount`, `readEntry(eid, key, rid)` returns a
non-zero code exactly when `eid` is not in `[0, keyCount)`, and then `key` and `rid` are
as they were on entry; otherwise it returns 0 and `key`, `rid.pid`, `rid.sid` are the
buffer words at positions `3 * eid`, `3 * eid + 1`, `3 * eid + 2`. -/
theorem readEntry_range_and_words (n : BTLeafNode) (eid key : Int) (rid : RecordId)
    (h : getKeyCount n ≤ g_maxKeyCount) :
    ∃ rc k r, readEntry n eid key rid = some (rc, k, r) ∧
      (rc ≠ 0 ↔ ¬ (0 ≤ eid ∧ eid < getKeyCount n)) ∧
      (rc ≠ 0 → k = key ∧ r = rid) ∧
      (rc = 0 → loadWord n.buffer (3 * eid) = some k ∧
        loadWord n.buffer (3 * eid + 1) = some r.pid ∧
        loadWord n.buffer (3 * eid + 2) = some r.sid) := by
  unfold getKeyCount g_maxKeyCount at *
  by_cases hr : 0 ≤ eid ∧ eid < n.keyCount
  · obtain ⟨b, kc⟩ := n
    simp only [] at h hr ⊢
    have hk0 : 0 ≤ kc := by omega
    lift kc to ℕ using hk0
    obtain ⟨he0, he⟩ := hr
    lift eid to ℕ using he0
    have e1 : (3 * (eid : Int)) = ((3 * eid : Nat) : Int) := by push_cast; ring
    have e2 : (((3 * eid : Nat) : Int) + 1) = ((3 * eid + 1 : Nat) : Int) := by
      push_cast; ring
    have e3 : (((3 * eid : Nat) : Int) + 2) = ((3 * eid + 2 : Nat) : Int) := by
      push_cast; ring
    refine ⟨0, _, _, readEntry_nat b kc eid (by omega) (by omega) key rid, ?_, ?_, ?_⟩
    · simp only [ne_eq, not_true_eq_false, false_iff, not_not]
      exact ⟨by omega, he⟩
    · intro hne
      exact absurd rfl hne
    · intro _
      rw [e1, e2, e3, loadWord_nat b _ (by omega), loadWord_nat b _ (by omega),
        loadWord_nat b _ (by omega)]
      exact ⟨rfl, rfl, rfl⟩
  · refine ⟨-1, key, rid, readEntry_out n eid hr key rid, ?_, ?_, ?_⟩
    · simp only [ne_eq, hr, not_false_eq_true, iff_true]
      omega
    · intro _
      exact ⟨rfl, rfl⟩
    · intro h0
      omega

/-- C10 at a concrete input: `readEntry(1, 0, (0, 0))` on a two-entry leaf whose buffer
word `j` holds `j`. -/
theorem readEntry_range_and_words_witness :
    readEntry ⟨fun j => (j : Int), 2⟩ 1 0 ⟨0, 0⟩ = some (0, 3, ⟨4, 5⟩) ∧
    ∃ rc k r, readEntry ⟨fun j => (j : Int), 2⟩ 1 0 ⟨0, 0⟩ = some (rc, k, r) ∧
      (rc ≠ 0 ↔ ¬ ((0 : Int) ≤ 1 ∧ 1 < getKeyCount ⟨fun j => (j : Int), 2⟩)) ∧
      (rc ≠ 0 → k = 0 ∧ r = ⟨0, 0⟩) ∧
      (rc = 0 → loadWord (fun j => (j : Int)) (3 * 1) = some k ∧
        loadWord (fun j => (j : Int)) (3 * 1 + 1) = some r.pid ∧
        loadWord (fun j => (j : Int)) (3 * 1 + 2) = some r.sid) :=
  ⟨by decide, readEntry_range_and_words ⟨fun j => (j : Int), 2⟩ 1 0 ⟨0, 0⟩ (by decide)⟩

/-! ## `read`, `write` and `setNextNodePtr` -/

theorem write_then_read (node : BTLeafNode) (pid : Int) (pf pf1 : PageFile)
    (b0 : Nat → Int) (kc : Int) (hw : write node pid pf = (0, pf1)) :
    read ⟨b0, kc⟩ pid pf1 =
      (0, ⟨fun j => if j < 256 then node.buffer j else b0 j, kc⟩) := by
  unfold write PageFile.write at hw
  by_cases hf : pf.fails pid = true
  · rw [if_pos hf] at hw
    simp at hw
  · rw [if_neg hf] at hw
    simp only [Int.lt_irrefl, if_false, Prod.mk.injEq, true_and] at hw
    subst hw
    unfold read PageFile.read
    simp only []
    rw [if_neg hf]
    simp

/-- C11, the code on the round trip.  Whenever `write` succeeds, a `read` of the same page
into a fresh leaf succeeds and restores the buffer, so `getNextNodePtr()` agrees, but
`keyCount` stays 0: `getKeyCount()` returns 0 and every `readEntry` returns an error.
For the leaf holding `(7, (0, 0))`: `getKeyCount()` is 1 before and 0 after the round
trip, and `readEntry(0)` returns the entry before and an error after. -/
theorem write_read_loses_keyCount :
    (∀ (node : BTLeafNode) (pid : Int) (pf pf1 : PageFile) (b0 : Nat → Int),
      write node pid pf = (0, pf1) →
      ∃ node2, read ⟨b0, 0⟩ pid pf1 = (0, node2) ∧ getKeyCount node2 = 0 ∧
        (∀ i k0 r0, readEntry node2 i k0 r0 = some (-1, k0, r0)) ∧
        getNextNodePtr node2 = getNextNodePtr node) ∧
    (∃ pf1 node2, write leaf7 3 emptyStore = (0, pf1) ∧
      read emptyLeaf 3 pf1 = (0, node2) ∧
      getKeyCount leaf7 = 1 ∧ getKeyCount node2 = 0 ∧
      readEntry leaf7 0 0 ⟨0, 0⟩ = some (0, 7, ⟨0, 0⟩) ∧
      readEntry node2 0 0 ⟨0, 0⟩ = some (-1, 0, ⟨0, 0⟩)) := by
  constructor
  · intro node pid pf pf1 b0 hw
    refine ⟨_, write_then_read node pid pf pf1 b0 0 hw, rfl, ?_, ?_⟩
    · intro i k0 r0
      exact readEntry_out _ i (by simp only []; omega) k0 r0
    · unfold getNextNodePtr
      simp
  · exact ⟨_, _, rfl, rfl, by decide, by decide, by decide, by decide⟩

/-- C12. On a leaf with `keyCount ≤ g_maxKeyCount`, `setNextNodePtr(pid)` returns 0, a
following `getNextNodePtr()` returns `pid`, and `getKeyCount()` and every `readEntry(i)`
are as before the call. -/
theorem setNextNodePtr_frame (n : BTLeafNode) (pid : Int)
    (h : getKeyCount n ≤ g_maxKeyCount) :
    (setNextNodePtr n pid).1 = 0 ∧
    getNextNodePtr (setNextNodePtr n pid).2 = pid ∧
    getKeyCount (setNextNodePtr n pid).2 = getKeyCount n ∧
    ∀ i k0 r0, readEntry (setNextNodePtr n pid).2 i k0 r0 = readEntry n i k0 r0 := by
  refine ⟨rfl, by unfold getNextNodePtr setNextNodePtr; simp, rfl, ?_⟩
  intro i k0 r0
  unfold getKeyCount g_maxKeyCount at h
  by_cases hr : 0 ≤ i ∧ i < n.keyCount
  · obtain ⟨b, kc⟩ := n
    simp only [] at h hr
    have hk0 : 0 ≤ kc := by omega
    lift kc to ℕ using hk0
    obtain ⟨hi0, hi⟩ := hr
    lift i to ℕ using hi0
    unfold setNextNodePtr
    simp only []
    rw [readEntry_nat _ kc i (by omega) (by omega), readEntry_nat b kc i (by omega) (by omega),
      if_neg (by omega), if_neg (by omega), if_neg (by omega)]
  · rw [readEntry_out n i hr, readEntry_out _ i (by unfold setNextNodePtr; exact hr)]

/-- C12 at a concrete input: `setNextNodePtr(42)` on the leaf holding `(7, (0, 0))`. -/
theorem setNextNodePtr_frame_witness :
    (setNextNodePtr leaf7 42).1 = 0 ∧
    getNextNodePtr (setNextNodePtr leaf7 42).2 = 42 ∧
    getKeyCount (setNextNodePtr leaf7 42).2 = getKeyCount leaf7 ∧
    ∀ i k0 r0, readEntry (setNextNodePtr leaf7 42).2 i k0 r0 = readEntry leaf7 i k0 r0 :=
  setNextNodePtr_frame leaf7 42 (by decide)

/-! ## Reachable states -/

theorem readEntry_zero_some (s : BTLeafNode) (k0 : Int) (r0 : RecordId) :
    ∃ rc k r, readEntry s 0 k0 r0 = some (rc, k, r) := by
  unfold readEntry
  by_cases hg : s.keyCount ≤ 0 ∨ (0 : Int) < 0 ∨ (0 : Int) ≥ s.keyCount
  · rw [if_pos hg]
    exact ⟨_, _, _, rfl⟩
  · rw [if_neg hg]
    simp [loadWord, bufferWords]

theorem insertAndSplit_some (n : BTLeafNode) (key : Int) (rid : RecordId)
    (sibling : BTLeafNode) (siblingKey rc : Int) (n1 : BTLeafNode)
    (hins : insert n key rid = some (rc, n1)) :
    ∃ k1, insertAndSplit n key rid sibling siblingKey = some (0, n1, sibling, k1) := by
  obtain ⟨rc2, k, r, hr⟩ := readEntry_zero_some sibling siblingKey ⟨0, 0⟩
  unfold insertAndSplit
  rw [hins]
  simp only []
  rw [hr]
  exact ⟨k, rfl⟩

theorem insert_keyCount_range (n : BTLeafNode) (key : Int) (rid : RecordId)
    (h0 : 0 ≤ n.keyCount) (h1 : n.keyCount ≤ 85) :
    ∃ rc n1, insert n key rid = some (rc, n1) ∧ 0 ≤ n1.keyCount ∧ n1.keyCount ≤ 85 := by
  obtain ⟨rc, n1, hins, _, hcase⟩ := insert_returns n key rid h0
  refine ⟨rc, n1, hins, ?_⟩
  rcases hcase with ⟨_, _, hk⟩ | ⟨_, _, hk⟩
  · omega
  · rw [hk]
    exact ⟨h0, h1⟩

theorem runCalls_range (calls : List LeafCall) :
    ∀ n : BTLeafNode, 0 ≤ n.keyCount → n.keyCount ≤ 85 →
      ∃ n', runCalls n calls = some n' ∧ 0 ≤ n'.keyCount ∧ n'.keyCount ≤ 85 := by
  induction calls with
  | nil =>
    intro n h0 h1
    exact ⟨n, rfl, h0, h1⟩
  | cons call rest ih =>
    intro n h0 h1
    cases call with
    | insert key rid =>
      obtain ⟨rc, n1, hins, h01, h11⟩ := insert_keyCount_range n key rid h0 h1
      obtain ⟨n', hrun, hr⟩ := ih n1 h01 h11
      refine ⟨n', ?_, hr⟩
      unfold runCalls
      rw [hins]
      exact hrun
    | insertAndSplit key rid sibling siblingKey =>
      obtain ⟨rc, n1, hins, h01, h11⟩ := insert_keyCount_range n key rid h0 h1
      obtain ⟨k1, hsplit⟩ := insertAndSplit_some n key rid sibling siblingKey rc n1 hins
      obtain ⟨n', hrun, hr⟩ := ih n1 h01 h11
      refine ⟨n', ?_, hr⟩
      unfold runCalls
      rw [hsplit]
      exact hrun

/-- C13. Every sequence of `insert` and `insertAndSplit` calls (with any siblings) on an
initially empty leaf runs to its end, and in the state it reaches `getKeyCount()` is
between 0 and `g_maxKeyCount`. -/
theorem keyCount_within_capacity (b0 : Nat → Int) (calls : List LeafCall) :
    ∃ n, runCalls ⟨b0, 0⟩ calls = some n ∧
      0 ≤ getKeyCount n ∧ getKeyCount n ≤ g_maxKeyCount := by
  obtain ⟨n, hrun, h0, h1⟩ := runCalls_range calls ⟨b0, 0⟩ (le_refl _) (by simp)
  exact ⟨n, hrun, h0, h1⟩

/-! ## `BTNonLeafNode` -/

/-- C14, the code.  After `initializeRoot(pid1, key, pid2)`, `locateChildPtr(searchKey,
pid)` returns 0 and leaves `pid` at the value it had on entry, whatever `searchKey` is;
with `pid1 = 1`, `key = 10`, `pid2 = 2` and `pid = 99` on entry it outputs 99 for
`searchKey` 5 and 15, and after a further `insert(20, 3)` it outputs 99 for 5, 15, 20
and 25. -/
theorem locateChildPtr_leaves_pid :
    (∀ (n : BTNonLeafNode) (pid1 key pid2 searchKey pid : Int),
      BTNonLeafNode.locateChildPtr (BTNonLeafNode.initializeRoot n pid1 key pid2).2
        searchKey pid = (0, pid)) ∧
    (∀ searchKey ∈ [(5 : Int), 15],
      BTNonLeafNode.locateChildPtr (BTNonLeafNode.initializeRoot ⟨fun _ => 0⟩ 1 10 2).2
        searchKey 99 = (0, 99)) ∧
    (∀ searchKey ∈ [(5 : Int), 15, 20, 25],
      BTNonLeafNode.locateChildPtr
        (BTNonLeafNode.insert (BTNonLeafNode.initializeRoot ⟨fun _ => 0⟩ 1 10 2).2 20 3).2
        searchKey 99 = (0, 99)) :=
  ⟨fun _ _ _ _ _ _ => rfl, by decide, by decide⟩

/-- C15, the code.  `initializeRoot` returns 0 and `getKeyCount()` is 0 after it, not 1;
`insert` returns 0 and leaves `getKeyCount()` as it was, namely 0. -/
theorem nonleaf_getKeyCount_stays_zero :
    (∀ (n : BTNonLeafNode) (pid1 key pid2 : Int),
      (BTNonLeafNode.initializeRoot n pid1 key pid2).1 = 0 ∧
      BTNonLeafNode.getKeyCount (BTNonLeafNode.initializeRoot n pid1 key pid2).2 = 0) ∧
    (∀ (n : BTNonLeafNode) (key pid : Int),
      (BTNonLeafNode.insert n key pid).1 = 0 ∧
      BTNonLeafNode.getKeyCount (BTNonLeafNode.insert n key pid).2 = 0 ∧
      BTNonLeafNode.getKeyCount (BTNonLeafNode.insert n key pid).2 =
        BTNonLeafNode.getKeyCount n) :=
  ⟨fun _ _ _ _ => ⟨rfl, rfl⟩, fun _ _ _ => ⟨rfl, rfl, rfl⟩⟩

theorem insertCodes_zero (ops : List (Int × Int)) :
    ∀ n : BTNonLeafNode, BTNonLeafNode.insertCodes n ops = List.replicate ops.length 0 := by
  induction ops with
  | nil =>
    intro n
    rfl
  | cons op rest ih =>
    intro n
    obtain ⟨key, pid⟩ := op
    unfold BTNonLeafNode.insertCodes
    rw [ih]
    rfl

/-- C16, the code.  In every sequence of `BTNonLeafNode::insert` calls on one node, of
any length, every call returns 0; so all 128 calls of a sequence of 128 inserts on an
empty internal node return 0. -/
theorem nonleaf_insert_never_fails :
    (∀ (n : BTNonLeafNode) (ops : List (Int × Int)),
      (BTNonLeafNode.insertCodes n ops).length = ops.length ∧
      ∀ rc ∈ BTNonLeafNode.insertCodes n ops, rc = 0) ∧
    BTNonLeafNode.insertCodes ⟨fun _ => 0⟩
      ((List.range 128).map (fun i : Nat => ((i : Int), (i : Int) + 1000))) =
      List.replicate 128 0 := by
  constructor
  · intro n ops
    rw [insertCodes_zero ops n]
    exact ⟨List.length_replicate _ _, fun rc hrc => List.eq_of_mem_replicate hrc⟩
  · rw [insertCodes_zero, List.length_map, List.length_range]

/-! ## The words `insert` stores to -/

theorem insertToBufferLog_erase (n : BTLeafNode) (key : Int) (rid : RecordId) (eid : Int) :
    (insertToBufferLog n key rid eid).map (fun r => (r.1, r.2.1)) =
      insertToBuffer n key rid eid := by
  unfold insertToBufferLog insertToBuffer
  by_cases hf : checkFull n = true
  · rw [if_pos hf, if_pos hf]
    rfl
  · rw [if_neg hf, if_neg hf]
    simp only []
    cases storeWord n.buffer (eid * 3) key with
    | none => rfl
    | some b1 =>
      simp only []
      cases storeWord b1 (eid * 3 + 1) rid.pid with
      | none => rfl
      | some b2 =>
        simp only []
        cases storeWord b2 (eid * 3 + 2) rid.sid with
        | none => rfl
        | some b3 => rfl

theorem shiftLoopLog_erase (eid : Int) :
    ∀ (k : Nat) (n : BTLeafNode),
      (shiftLoopLog eid k n).map (fun r => (r.1, r.2.1)) = shiftLoop eid k n := by
  intro k
  induction k with
  | zero =>
    intro n
    rfl
  | succ k ih =>
    intro n
    unfold shiftLoopLog shiftLoop
    simp only []
    cases readEntry n (eid + k) 0 ⟨0, 0⟩ with
    | none => rfl
    | some res =>
      obtain ⟨rc, readKey, readRid⟩ := res
      simp only []
      by_cases hrc : rc ≠ 0
      · rw [if_pos hrc, if_pos hrc]
        rfl
      · rw [if_neg hrc, if_neg hrc, ← insertToBufferLog_erase]
        cases insertToBufferLog n readKey readRid (eid + k + 1) with
        | none => rfl
        | some res2 =>
          obtain ⟨rc2, n2, w⟩ := res2
          simp only [Option.map_some']
          by_cases hrc2 : rc2 ≠ 0
          · rw [if_pos hrc2, if_pos hrc2]
            rfl
          · rw [if_neg hrc2, if_neg hrc2, ← ih n2]
            cases shiftLoopLog eid k n2 with
            | none => rfl
            | some res3 => rfl

theorem insertLog_erase (n : BTLeafNode) (key : Int) (rid : RecordId) :
    (insertLog n key rid).map (fun r => (r.1, r.2.1)) = insert n key rid := by
  unfold insertLog insert
  by_cases hf : checkFull n = true
  · rw [if_pos hf, if_pos hf]
    rfl
  · rw [if_neg hf, if_neg hf]
    cases insertScan n key n.keyCount.toNat 0 with
    | none => rfl
    | some eidCandidate =>
      simp only []
      by_cases he : eidCandidate ≠ n.keyCount
      · rw [if_pos he, if_pos he]
        unfold shiftLog shift
        rw [← shiftLoopLog_erase]
        cases shiftLoopLog eidCandidate (n.keyCount - eidCandidate).toNat n with
        | none => rfl
        | some res =>
          obtain ⟨rc1, n1, w1⟩ := res
          simp only [Option.map_some']
          rw [← insertToBufferLog_erase]
          cases insertToBufferLog n1 key rid eidCandidate with
          | none => rfl
          | some res2 => rfl
      · rw [if_neg he, if_neg he]
        simp only []
        rw [← insertToBufferLog_erase]
        cases insertToBufferLog n key rid eidCandidate with
        | none => rfl
        | some res2 => rfl

theorem insertToBufferLog_nat (b : Nat → Int) (c e : Nat) (hc : c < 85) (he : e < 85)
    (key : Int) (rid : RecordId) :
    insertToBufferLog ⟨b, c⟩ key rid e =
      some (0, ⟨putEntry b e key rid, c⟩,
        [((3 * e : Nat) : Int), ((3 * e + 1 : Nat) : Int), ((3 * e + 2 : Nat) : Int)]) := by
  have hcf : checkFull ⟨b, c⟩ = false := by
    unfold checkFull g_maxKeyCount
    rw [if_neg (by simp only []; omega)]
  unfold insertToBufferLog
  have e1 : ((e : Int) * 3) = ((3 * e : Nat) : Int) := by push_cast; ring
  have e2 : (((3 * e : Nat) : Int) + 1) = ((3 * e + 1 : Nat) : Int) := by push_cast; ring
  have e3 : (((3 * e : Nat) : Int) + 2) = ((3 * e + 2 : Nat) : Int) := by push_cast; ring
  rw [hcf, if_neg Bool.false_ne_true]
  simp only []
  rw [e1, e2, e3, storeWord_nat _ _ _ (by omega)]
  simp only []
  rw [storeWord_nat _ _ _ (by omega)]
  simp only []
  rw [storeWord_nat _ _ _ (by omega)]
  rfl

theorem shiftLoopLog_nat (p c : Nat) (hc : c < 85) :
    ∀ (k : Nat) (b : Nat → Int), p + k ≤ c →
      ∃ w, shiftLoopLog (p : Int) k ⟨b, c⟩ = some (0, ⟨shiftBuf b p k, c⟩, w) ∧
        ∀ j ∈ w, (0 : Int) ≤ j ∧ j ≤ 254 := by
  intro k
  induction k with
  | zero =>
    intro b _
    refine ⟨[], ?_, by simp⟩
    unfold shiftLoopLog
    have : shiftBuf b p 0 = b := by
      funext j
      unfold shiftBuf
      rw [if_neg (by omega)]
    rw [this]
  | succ k ih =>
    intro b hk
    obtain ⟨w3, hrec, hw3⟩ := ih (putEntry b (p + k + 1) (b (3 * (p + k)))
      ⟨b (3 * (p + k) + 1), b (3 * (p + k) + 2)⟩) (by omega)
    refine ⟨[((3 * (p + k + 1) : Nat) : Int), ((3 * (p + k + 1) + 1 : Nat) : Int),
      ((3 * (p + k + 1) + 2 : Nat) : Int)] ++ w3, ?_, ?_⟩
    · unfold shiftLoopLog
      have e1 : ((p : Int) + (k : Int)) = ((p + k : Nat) : Int) := by push_cast; ring
      have e2 : (((p + k : Nat) : Int) + 1) = ((p + k + 1 : Nat) : Int) := by
        push_cast; ring
      simp only []
      rw [e1, e2, readEntry_nat b c (p + k) (by omega) (by omega)]
      simp only [ne_eq, not_true_eq_false, if_false]
      rw [insertToBufferLog_nat b c (p + k + 1) hc (by omega)]
      simp only [ne_eq, not_true_eq_false, if_false]
      rw [hrec]
      simp only [Option.some.injEq, Prod.mk.injEq, true_and, and_true]
      congr 1
      funext j
      unfold shiftBuf putEntry
      simp only []
      split_ifs <;> first | rfl | omega | (congr 1; omega)
    · intro j hj
      rw [List.mem_append] at hj
      rcases hj with hj | hj
      · simp only [List.mem_cons, List.mem_singleton, List.not_mem_nil, or_false] at hj
        omega
      · exact hw3 j hj

theorem insertLog_nat (b : Nat → Int) (c : Nat) (key : Int) (rid : RecordId) (hc : c < 85) :
    ∃ n' w, insertLog ⟨b, c⟩ key rid = some (0, n', w) ∧
      ∀ j ∈ w, (0 : Int) ≤ j ∧ j ≤ 254 := by
  obtain ⟨p, hscan, hpc, _, _⟩ :=
    insertScan_nat b c key (by omega) c 0 (by omega) (fun j hj => absurd hj (by omega))
  have hcf : checkFull ⟨b, c⟩ = false := by
    unfold checkFull g_maxKeyCount
    rw [if_neg (by simp only []; omega)]
  have hw2 : ∀ j ∈ [((3 * p : Nat) : Int), ((3 * p + 1 : Nat) : Int),
      ((3 * p + 2 : Nat) : Int)], (0 : Int) ≤ j ∧ j ≤ 254 := by
    intro j hj
    simp only [List.mem_cons, List.mem_singleton, List.not_mem_nil, or_false] at hj
    omega
  unfold insertLog
  rw [hcf, if_neg Bool.false_ne_true]
  simp only [Int.toNat_ofNat, Nat.cast_zero]
  simp only [Nat.cast_zero] at hscan
  rw [hscan]
  simp only []
  by_cases hp : p = c
  · subst hp
    rw [if_neg (by simp)]
    simp only []
    rw [insertToBufferLog_nat b p p hc hc]
    exact ⟨_, _, rfl, by simpa using hw2⟩
  · rw [if_pos (by simp only [ne_eq, Nat.cast_inj]; exact hp)]
    unfold shiftLog
    have e1 : ((c : Int) - (p : Int)).toNat = c - p := by omega
    simp only []
    obtain ⟨w1, hshift, hw1⟩ := shiftLoopLog_nat p c hc (c - p) b (by omega)
    rw [e1, hshift]
    simp only []
    rw [insertToBufferLog_nat _ c p hc (by omega)]
    refine ⟨_, _, rfl, ?_⟩
    intro j hj
    rw [List.mem_append] at hj
    rcases hj with hj | hj
    · exact hw1 j hj
    · exact hw2 j hj

/-- C18. On a leaf with `0 ≤ keyCount ≤ g_maxKeyCount`, `insert` returns, the words that
`shift` and `insertToBuffer` store to during the call all have an index in `[0, 254]`,
and `getNextNodePtr()` after the call is what it was before. -/
theorem insert_spares_next_pointer (n : BTLeafNode) (key : Int) (rid : RecordId)
    (h0 : 0 ≤ getKeyCount n) (h1 : getKeyCount n ≤ g_maxKeyCount) :
    ∃ rc n' w, insertLog n key rid = some (rc, n', w) ∧
      insert n key rid = some (rc, n') ∧
      getNextNodePtr n' = getNextNodePtr n ∧
      ∀ j ∈ w, (0 : Int) ≤ j ∧ j ≤ 254 := by
  unfold getKeyCount at h0 h1
  obtain ⟨rc, n', hins, hnext, _⟩ := insert_returns n key rid h0
  have herase := insertLog_erase n key rid
  by_cases hfull : n.keyCount ≥ g_maxKeyCount
  · have hcf : checkFull n = true := by
      unfold checkFull
      rw [if_pos hfull]
    have hlog : insertLog n key rid = some (-1, n, []) := by
      unfold insertLog
      rw [hcf, if_pos rfl]
    rw [insert_full n key rid hfull] at hins
    simp only [Option.some.injEq, Prod.mk.injEq] at hins
    obtain ⟨hrc, hn⟩ := hins
    subst hrc
    subst hn
    exact ⟨-1, n, [], hlog, insert_full n key rid hfull, rfl, by simp⟩
  · obtain ⟨b, kc⟩ := n
    unfold g_maxKeyCount at hfull
    simp only [] at h0 hfull
    lift kc to ℕ using h0
    obtain ⟨n2, w, hlog, hw⟩ := insertLog_nat b kc key rid (by omega)
    rw [hlog, hins] at herase
    simp only [Option.map_some', Option.some.injEq, Prod.mk.injEq] at herase
    obtain ⟨hrc, hn⟩ := herase
    subst hrc
    subst hn
    exact ⟨0, n2, w, hlog, hins, hnext, hw⟩

/-- C18 at a concrete input: `insert(5, (1, 2))` into the leaf holding `(5, (1, 1))` and
`(9, (1, 3))` stores to words 6, 7, 8, then 3, 4, 5, then 0, 1, 2. -/
theorem insert_spares_next_pointer_witness :
    (insertLog leaf59 5 ⟨1, 2⟩).map (fun r => (r.1, r.2.2)) =
      some (0, [6, 7, 8, 3, 4, 5, 0, 1, 2]) ∧
    ∃ rc n' w, insertLog leaf59 5 ⟨1, 2⟩ = some (rc, n', w) ∧
      insert leaf59 5 ⟨1, 2⟩ = some (rc, n') ∧
      getNextNodePtr n' = getNextNodePtr leaf59 ∧
      ∀ j ∈ w, (0 : Int) ≤ j ∧ j ≤ 254 :=
  ⟨by decide, insert_spares_next_pointer leaf59 5 ⟨1, 2⟩ (by decide) (by decide)⟩

/-- C17 fails as stated: after `insert(5, (1, 1))` and then `insert(5, (1, 2))` on an empty
leaf, the entry inserted second is at index 0 and the one inserted first at index 1, and
`locate(5)` outputs index 0, where `readEntry` returns the record id inserted last. -/
theorem insert_equal_key_counterexample :
    ∃ n n', insertAll emptyLeaf [(5, ⟨1, 1⟩)] = some n ∧
      readEntry n 0 0 ⟨0, 0⟩ = some (0, 5, ⟨1, 1⟩) ∧
      insert n 5 ⟨1, 2⟩ = some (0, n') ∧
      readEntry n' 0 0 ⟨0, 0⟩ = some (0, 5, ⟨1, 2⟩) ∧
      readEntry n' 1 0 ⟨0, 0⟩ = some (0, 5, ⟨1, 1⟩) ∧
      locate n' 5 0 = some (0, 0) :=
  ⟨_, _, rfl, by decide, rfl, by decide, by decide, by decide⟩

/-- C17 as amended.  On a leaf with `0 ≤ keyCount < g_maxKeyCount` that holds `(k, r1)` at
index `i`, `insert(k, r2)` returns 0 and puts `(k, r2)` at an index `p ≤ i`, below the
old entry, which is now at index `i + 1`; and `locate(k, eid)`, with `eid` in range on
entry, outputs `p`, where `readEntry` returns `r2`, the record id inserted last. -/
theorem insert_equal_key_goes_first (n : BTLeafNode) (k : Int) (r1 r2 : RecordId)
    (i eid : Int) (h0 : 0 ≤ getKeyCount n) (h1 : getKeyCount n < g_maxKeyCount)
    (hold : readEntry n i 0 ⟨0, 0⟩ = some (0, k, r1))
    (he0 : 0 ≤ eid) (he : eid ≤ getKeyCount n) :
    ∃ (n' : BTLeafNode) (p : Int), insert n k r2 = some (0, n') ∧ 0 ≤ p ∧ p ≤ i ∧
      readEntry n' p 0 ⟨0, 0⟩ = some (0, k, r2) ∧
      readEntry n' (i + 1) 0 ⟨0, 0⟩ = some (0, k, r1) ∧
      locate n' k eid = some (0, p) := by
  have hrange := readEntry_ok_range n i 0 k ⟨0, 0⟩ r1 hold
  obtain ⟨b, kc⟩ := n
  unfold getKeyCount g_maxKeyCount at *
  simp only [] at h0 h1 he hrange
  lift kc to ℕ using h0
  obtain ⟨hi0, hi⟩ := hrange
  lift i to ℕ using hi0
  lift eid to ℕ using he0
  rw [readEntry_nat b kc i (by omega) (by omega)] at hold
  simp only [Option.some.injEq, Prod.mk.injEq, true_and] at hold
  obtain ⟨hk, hr1⟩ := hold
  obtain ⟨p, hpc, hlt, hge, hins⟩ := insert_nat b kc k r2 (by omega)
  have hpi : p ≤ i := by
    by_contra hcon
    have := hlt i (by omega)
    omega
  have e1 : ((i : Int) + 1) = ((i + 1 : Nat) : Int) := by push_cast; ring
  have e2 : 3 * (i + 1) = 3 * i + 3 := by omega
  have e3 : 3 * i + 3 + 1 = 3 * i + 1 + 3 := by omega
  have e4 : 3 * i + 3 + 2 = 3 * i + 2 + 3 := by omega
  refine ⟨_, (p : Int), hins, by omega, by omega, ?_, ?_, ?_⟩
  · rw [readEntry_nat _ (kc + 1) p (by omega) (by omega), insertBuf_key, insertBuf_pid,
      insertBuf_sid]
  · rw [e1, readEntry_nat _ (kc + 1) (i + 1) (by omega) (by omega), e2, e3, e4,
      insertBuf_shifted _ _ _ _ _ _ hpc (by omega) (by omega),
      insertBuf_shifted _ _ _ _ _ _ hpc (by omega) (by omega),
      insertBuf_shifted _ _ _ _ _ _ hpc (by omega) (by omega), hk, ← hr1]
  · have hloc : locate ⟨insertBuf b p kc k r2, ((kc + 1 : Nat) : Int)⟩ k eid =
        locateLoop ⟨insertBuf b p kc k r2, ((kc + 1 : Nat) : Int)⟩ k eid (kc + 1) 0 := by
      unfold locate
      rw [if_neg (by simp only []; omega)]
      simp
    rw [hloc]
    rcases locateLoop_nat (insertBuf b p kc k r2) (kc + 1) k eid (by omega) (kc + 1) 0
      (by omega) (fun j hj => absurd hj (by omega)) with ⟨m, hm, hl, hmge, hmlt⟩ | ⟨_, hall⟩
    · have hmp : m = p := by
        rcases Nat.lt_trichotomy m p with h | h | h
        · have h3 := hlt m h
          rw [insertBuf_lt b p kc k r2 (3 * m) (by omega)] at hmge
          omega
        · exact h
        · have h3 := hmlt p h
          rw [insertBuf_key] at h3
          omega
      subst hmp
      simpa using hl
    · have h3 := hall p (by omega)
      rw [insertBuf_key] at h3
      omega

/-- C17 as amended, at a concrete input: the leaf holds `(5, (1, 1))` at index 0 and
`(5, (1, 2))` is inserted. -/
theorem insert_equal_key_goes_first_witness :
    readEntry leaf59 0 0 ⟨0, 0⟩ = some (0, 5, ⟨1, 1⟩) ∧
    ∃ (n' : BTLeafNode) (p : Int), insert leaf59 5 ⟨1, 2⟩ = some (0, n') ∧ 0 ≤ p ∧ p ≤ 0 ∧
      readEntry n' p 0 ⟨0, 0⟩ = some (0, 5, ⟨1, 2⟩) ∧
      readEntry n' (0 + 1) 0 ⟨0, 0⟩ = some (0, 5, ⟨1, 1⟩) ∧
      locate n' 5 0 = some (0, p) :=
  ⟨by decide,
    insert_equal_key_goes_first leaf59 5 ⟨1, 1⟩ ⟨1, 2⟩ 0 0 (by decide) (by decide)
      (by decide) (by decide) (by decide)⟩

/-- C19. On a leaf at capacity (`keyCount ≥ g_maxKeyCount`) with an empty sibling,
`insertAndSplit` returns 0 and this node, the sibling and `siblingKey` are as before the
call: key counts, entries and next pointers are unchanged, and `(key, rid)` is stored in
neither node. -/
theorem insertAndSplit_at_capacity_changes_nothing (n : BTLeafNode) (key : Int)
    (rid : RecordId) (sibling : BTLeafNode) (siblingKey : Int)
    (hfull : getKeyCount n ≥ g_maxKeyCount) (hs : getKeyCount sibling = 0) :
    ∃ n1 s1 k1, insertAndSplit n key rid sibling siblingKey = some (0, n1, s1, k1) ∧
      n1 = n ∧ s1 = sibling ∧ k1 = siblingKey ∧
      getKeyCount n1 = getKeyCount n ∧ getNextNodePtr n1 = getNextNodePtr n ∧
      (∀ i k0 r0, readEntry n1 i k0 r0 = readEntry n i k0 r0) ∧
      getKeyCount s1 = getKeyCount sibling ∧
      getNextNodePtr s1 = getNextNodePtr sibling ∧
      (∀ i k0 r0, readEntry s1 i k0 r0 = readEntry sibling i k0 r0) := by
  unfold getKeyCount at hfull hs
  exact ⟨n, sibling, siblingKey,
    insertAndSplit_eq n key rid sibling siblingKey (by omega) (-1) n
      (insert_full n key rid hfull),
    rfl, rfl, rfl, rfl, rfl, fun _ _ _ => rfl, rfl, rfl, fun _ _ _ => rfl⟩

/-- C19 at a concrete input: the leaf holding 85 entries and an empty sibling. -/
theorem insertAndSplit_at_capacity_changes_nothing_witness :
    insertAndSplit fullLeaf 3 ⟨1, 2⟩ emptyLeaf 99 = some (0, fullLeaf, emptyLeaf, 99) := by
  obtain ⟨n1, s1, k1, h, hn, hsb, hk, _⟩ :=
    insertAndSplit_at_capacity_changes_nothing fullLeaf 3 ⟨1, 2⟩ emptyLeaf 99
      (by decide) (by decide)
  rw [h, hn, hsb, hk]

end BTreeNode
